import Mathlib

/-!
# Verification of the `gotopy` line-numbered interpreter

Shallow embedding of `src/gotopy2/gotopy.py`: a minimalist GOTO/GOSUB
interpreter with line numbering.  A program is a finite mapping from an
integer line number to a step; the `Runtime` engine walks the sorted line
table resolving `goto`/`gosub`/`return_`/`halt` signals into the next line
to execute, and can host a nested child engine (`run_file`).

Modelling choices:
* The Python dict `{line_number: callable}` becomes an association list
  `List (Int × Step)` with unique keys; `sorted(program)` becomes
  `List.insertionSort` over the keys.
* A Python step is an arbitrary callable mutating the shared dict and
  invoking engine operations; we embed steps as finite sequences of the
  primitive interactions a step can make with the store and the engine
  handle (`Act`).
* The shared state dict becomes an association list `Store`; Python's
  by-reference sharing is translated to explicit threading: when the
  nested run shares the parent's store, the child's final store becomes
  the parent's store after `run_file` returns.
* Python exceptions become `Except` errors that carry the runtime exactly
  as it was at the moment of the raise (Python raises before mutating, so
  the carried runtime witnesses which mutations did not happen).
* The unbounded `while` loop of `Runtime.run` becomes a fuel-indexed
  recursion; fuel is consumed once per loop iteration and once per nested
  `run_file` boundary.  Fuel exhaustion is an artifact of the embedding
  (`Err.outOfFuel`), distinct from every error the Python code can raise.
-/

/-- The shared mutable state: an insertion-ordered string-keyed store
(Python's `globals` dict, with `Int` standing in for the values). -/
def Store := List (String × Int)

instance : DecidableEq Store := by
  unfold Store; infer_instance

/-- `d.get(k)` on the store. -/
def storeGet (s : Store) (k : String) : Option Int :=
  match s with
  | [] => none
  | (k', v) :: rest => if k' = k then some v else storeGet rest k

/-- `d[k] = v` on the store: replace in place if present, else append. -/
def storeInsert (k : String) (v : Int) (s : Store) : Store :=
  match s with
  | [] => [(k, v)]
  | (k', v') :: rest =>
      if k' = k then (k, v) :: rest else (k', v') :: storeInsert k v rest

/-- Python dict truthiness: a dict is falsy exactly when it is empty. -/
def storeIsEmpty (s : Store) : Bool :=
  match s with
  | [] => true
  | _ :: _ => false

/-- One primitive interaction a step makes with the shared state or with
the engine handle it receives.  A step (`Step` below) is a finite sequence
of these, executed in order, mirroring a Python callable's sequence of
`g[k] = v` / `r.goto` / `r.gosub` / `r.return_` / `r.halt` / `r.run_file`
calls.  `runFile` carries the child program the external loader would
produce from the file, and the optional shared-state override; the
override models a store distinct from the parent's own (sharing the
parent's store is requested by omitting the override). -/
inductive Act where
  | setKey : String → Int → Act
  | goto : Int → Act
  | gosub : Int → Act
  | ret : Act
  | halt : Act
  | runFile : List (Int × List Act) → Option Store → Act

/-- A step: the executable unit bound to a line number. -/
abbrev Step := List Act

/-- `ProgramType = Dict[int, Callable[...]]`: association list with the
line numbers as keys (a Python dict has unique keys). -/
abbrev ProgramType := List (Int × Step)

/-- The keys of the program dict. -/
def progKeys (p : ProgramType) : List Int := p.map Prod.fst

/-- `line in self.program`: membership in the dict's key set. -/
def hasLine (p : ProgramType) (l : Int) : Bool := (p.lookup l).isSome

/-- `sorted(program)`: the program's keys in ascending order. -/
def sortLines (p : ProgramType) : List Int :=
  List.insertionSort (· ≤ ·) (progKeys p)

/-- The errors the interpreter can raise, plus the fuel-exhaustion
artifact of the embedding. -/
inductive Err where
  | noSuchLine : Int → Err          -- ValueError(f"No such line: {line}")
  | returnWithoutGosub : Err        -- RuntimeError("RETURN without GOSUB")
  | indexError : Int → Err          -- ValueError from self.lines.index(...)
  | outOfFuel : Err                 -- embedding artifact: loop bound hit
deriving DecidableEq

/-- The engine: mirrors the fields of the Python `Runtime` class.
`trace` is a ghost field recording the lines visited by `run`, used only
to state properties; no operation reads it. -/
structure Runtime where
  program : ProgramType
  lines : List Int
  line_idx : Nat
  stack : List (Option Int)
  globals : Store
  goto_line : Option Int
  returning : Bool
  halted : Bool
  trace : List Int

/-- Results: either the runtime after a successful run/operation, or an
error paired with the runtime exactly as it was when the exception was
raised (Python raises before any mutation for the failing operation). -/
abbrev RunResult := Except (Err × Runtime) Runtime

/-- `Runtime.__init__`: `globals_dict if globals_dict is not None else {}`;
`lines = sorted(program)`, `line_idx = 0`, empty stack, signals cleared.
The Python `parent` field is recorded provenance that no part of the
algorithm ever reads; it is omitted from the embedding. -/
def mkRuntime (p : ProgramType) (g : Option Store) : Runtime :=
  { program := p
    lines := sortLines p
    line_idx := 0
    stack := []
    globals := match g with | none => [] | some s => s
    goto_line := none
    returning := false
    halted := false
    trace := [] }

namespace Runtime

/-- `Runtime.goto`: fail fast on an unknown line, else set the pending
jump target. -/
def goto (rt : Runtime) (line : Int) : RunResult :=
  if hasLine rt.program line then
    .ok { rt with goto_line := some line }
  else
    .error (.noSuchLine line, rt)

/-- `Runtime.gosub`: fail fast on an unknown line; otherwise push the
next line number in sorted order (the sentinel `none` if the current line
is last) and set the pending jump target.  Python appends to and pops
from the same end of its stack list; we model that LIFO discipline with
cons/head. -/
def gosub (rt : Runtime) (line : Int) : RunResult :=
  if hasLine rt.program line then
    .ok { rt with
          stack := rt.lines.get? (rt.line_idx + 1) :: rt.stack
          goto_line := some line }
  else
    .error (.noSuchLine line, rt)

/-- `Runtime.return_`: pop the most recent return address; the sentinel
requests halt, a concrete line becomes the pending jump target; either
way the returning flag is set. -/
def return_ (rt : Runtime) : RunResult :=
  match rt.stack with
  | [] => .error (.returnWithoutGosub, rt)
  | r :: rest =>
      match r with
      | none => .ok { rt with stack := rest, halted := true, returning := true }
      | some l => .ok { rt with stack := rest, goto_line := some l, returning := true }

/-- `Runtime.halt`: request halt unconditionally. -/
def halt (rt : Runtime) : Runtime :=
  { rt with halted := true }

/-- The store the nested run is bound to: `globals_dict or self.globals`.
Python's `or` falls back to the parent's store when the override is `None`
*or* an empty (falsy) dict. -/
def childStore (ov : Option Store) (parentStore : Store) : Store :=
  match ov with
  | none => parentStore
  | some g => if storeIsEmpty g then parentStore else g

/-- Whether the nested run operates on the parent's own store (so that
its writes are the parent's writes). -/
def sharesState (ov : Option Store) : Bool :=
  match ov with
  | none => true
  | some g => storeIsEmpty g

/-- The fresh child engine `run_file` constructs: its own line table and
instruction pointer, an empty call stack, cleared signals. -/
def childRuntime (p : ProgramType) (ov : Option Store) (rt : Runtime) : Runtime :=
  { program := p
    lines := sortLines p
    line_idx := 0
    stack := []
    globals := childStore ov rt.globals
    goto_line := none
    returning := false
    halted := false
    trace := [] }

/-- `Runtime.run_file`, after the external loader has produced the child
program: build the child engine on `globals_dict or self.globals`, run it
to completion with the supplied runner, and propagate its error if any.
When the store was shared, the child's mutations are the parent's
(by-reference sharing, made explicit by threading the final store back);
when an isolated store was supplied, the parent is unchanged. -/
def run_file (nested : Runtime → RunResult) (rt : Runtime)
    (p : ProgramType) (ov : Option Store) : RunResult :=
  match nested (childRuntime p ov rt) with
  | .error e => .error e
  | .ok child => if sharesState ov then .ok { rt with globals := child.globals } else .ok rt

end Runtime

/-- Execute one action of a step against the engine, given a runner for
nested programs. -/
def execAction (nested : Runtime → RunResult) (rt : Runtime) : Act → RunResult
  | .setKey k v => .ok { rt with globals := storeInsert k v rt.globals }
  | .goto l => rt.goto l
  | .gosub l => rt.gosub l
  | .ret => rt.return_
  | .halt => .ok rt.halt
  | .runFile p ov => Runtime.run_file nested rt p ov

/-- Execute a step: its actions in order, propagating the first error. -/
def execActions (nested : Runtime → RunResult) (rt : Runtime) : List Act → RunResult
  | [] => .ok rt
  | a :: rest =>
      match execAction nested rt a with
      | .error e => .error e
      | .ok rt' => execActions nested rt' rest

/-- The per-iteration reset of `Runtime.run` before the step executes:
`self._goto_line = None; self._returning = False`, plus the ghost trace
recording that `line` is now visited. -/
def stepEnter (rt : Runtime) (line : Int) : Runtime :=
  { rt with goto_line := none, returning := false, trace := rt.trace ++ [line] }

/-- `self.program[line]`: the step bound to the line.  `line` is always
drawn from `sorted(program)`, so the dict lookup cannot miss; the default
`[]` is unreachable for such lines. -/
def stmtOf (rt : Runtime) (line : Int) : Step :=
  (rt.program.lookup line).getD []

/-- The tail of one loop iteration of `Runtime.run`, after the step has
executed: resolve the transient signals into the next position (or a
loop exit), faithfully to the source — including the branch that handles
"a return occurred", which re-checks the halted flag and the pending
jump target a second time.  `recur` continues the loop at the updated
runtime; `.ok` is the loop's `break`/fall-off exit. -/
def afterStep (recur : Runtime → RunResult) (rt1 : Runtime) : RunResult :=
  if rt1.halted then .ok rt1                -- if self._halted: break
  else
    match rt1.goto_line with
    | some l =>
        if l ∈ rt1.lines then
          recur { rt1 with line_idx := rt1.lines.indexOf l }
        else .error (.indexError l, rt1)    -- self.lines.index raises
    | none =>
        if rt1.returning then
          -- the source re-checks halted and the jump target here
          if rt1.halted then .ok rt1
          else
            match rt1.goto_line with
            | some l =>
                if l ∈ rt1.lines then
                  recur { rt1 with line_idx := rt1.lines.indexOf l }
                else .error (.indexError l, rt1)
            | none => .ok rt1               -- break
        else
          if rt1.line_idx + 1 < rt1.lines.length then
            recur { rt1 with line_idx := rt1.line_idx + 1 }
          else .ok rt1                      -- fall off the end

/-- The tail of one loop iteration with the "a return occurred" branch
removed: a set returning flag is ignored, and with no halt and no
pending jump the loop simply advances. -/
def afterStepSimpl (recur : Runtime → RunResult) (rt1 : Runtime) : RunResult :=
  if rt1.halted then .ok rt1
  else
    match rt1.goto_line with
    | some l =>
        if l ∈ rt1.lines then
          recur { rt1 with line_idx := rt1.lines.indexOf l }
        else .error (.indexError l, rt1)
    | none =>
        if rt1.line_idx + 1 < rt1.lines.length then
          recur { rt1 with line_idx := rt1.line_idx + 1 }
        else .ok rt1

/-- The `while` loop of `Runtime.run`, fuel-indexed.  One fuel unit is
consumed per loop iteration; a nested `run_file` runs its child on the
remaining fuel. -/
def runLoop : Nat → Runtime → RunResult
  | 0, rt => .error (.outOfFuel, rt)
  | fuel + 1, rt =>
      match rt.lines.get? rt.line_idx with
      | none => .ok rt                      -- while condition false
      | some line =>
          if rt.halted then .ok rt          -- if self._halted: break
          else
            match execActions (fun c => runLoop fuel { c with line_idx := 0 })
                (stepEnter rt line) (stmtOf rt line) with
            | .error e => .error e
            | .ok rt1 => afterStep (runLoop fuel) rt1

/-- `Runtime.run`: reset the instruction pointer to the first line, then
iterate the loop. -/
def Runtime.run (fuel : Nat) (rt : Runtime) : RunResult :=
  runLoop fuel { rt with line_idx := 0 }

/-- Top-level entry point `run_program`: build an engine, run it, and
yield the final shared state. -/
def run_program (fuel : Nat) (p : ProgramType) (g : Option Store) :
    Except (Err × Runtime) Store :=
  match (mkRuntime p g).run fuel with
  | .ok rt => .ok rt.globals
  | .error e => .error e

/-- Observer: the final shared state of a successful run. -/
def resultGlobals : RunResult → Option Store
  | .ok rt => some rt.globals
  | .error _ => none

/-- Observer: the visited-lines trace of a successful run. -/
def resultTrace : RunResult → Option (List Int)
  | .ok rt => some rt.trace
  | .error _ => none

/-- Observer: the halted flag of a successful run. -/
def resultHalted : RunResult → Option Bool
  | .ok rt => some rt.halted
  | .error _ => none

/-- The run loop with the branch that handles "a return occurred"
removed: when no halt was requested and no jump target is pending, the
loop advances to the next line directly, ignoring the returning flag.
Everything else is identical to `runLoop` (nested runs use the
simplified loop as well). -/
def runLoopSimpl : Nat → Runtime → RunResult
  | 0, rt => .error (.outOfFuel, rt)
  | fuel + 1, rt =>
      match rt.lines.get? rt.line_idx with
      | none => .ok rt
      | some line =>
          if rt.halted then .ok rt
          else
            match execActions (fun c => runLoopSimpl fuel { c with line_idx := 0 })
                (stepEnter rt line) (stmtOf rt line) with
            | .error e => .error e
            | .ok rt1 => afterStepSimpl (runLoopSimpl fuel) rt1

/-- Signal coherence: if the returning flag is set then either halt was
requested or a jump target is pending.  This is the outcome space of
`return_`, and it is what makes the re-checking branch of the run loop
dead code. -/
def sigOk (rt : Runtime) : Prop :=
  rt.returning = true → (rt.halted = true ∨ rt.goto_line.isSome = true)

/-- Call-stack invariant: every entry is the terminate-on-return
sentinel or a line number present in the program. -/
def stackOk (rt : Runtime) : Prop :=
  ∀ l : Int, some l ∈ rt.stack → hasLine rt.program l = true

/-- Pending-jump invariant: a pending jump target is always a line
number present in the program. -/
def gotoOk (rt : Runtime) : Prop :=
  ∀ l : Int, rt.goto_line = some l → hasLine rt.program l = true

/-- Line-table invariant: the line table is the sorted key list of the
bound program (established by the constructor, never mutated). -/
def linesOk (rt : Runtime) : Prop :=
  rt.lines = sortLines rt.program

/-- An action that interacts with the engine only through the four
control operations or plain state writes (i.e., not a nested program
invocation). -/
def Act.isBasic : Act → Bool
  | .runFile _ _ => false
  | _ => true

/-- An action that only writes the shared state. -/
def Act.isSetKey : Act → Bool
  | .setKey _ _ => true
  | _ => false

/-- A step whose engine interactions are only goto/gosub/return/halt
(plus state writes). -/
def basicStep (s : Step) : Bool := s.all Act.isBasic

/-- A step that invokes none of goto, gosub, return or halt: pure state
writes. -/
def pureStep (s : Step) : Bool := s.all Act.isSetKey

/-- A program all of whose steps are basic. -/
def basicProg (p : ProgramType) : Bool := p.all fun pr => basicStep pr.2

/-- A program all of whose steps are pure state writes. -/
def pureProg (p : ProgramType) : Bool := p.all fun pr => pureStep pr.2

/-! ## Basic lemmas about the line table and dict lookup -/

theorem hasLine_iff_mem (p : ProgramType) (l : Int) :
    hasLine p l = true ↔ l ∈ progKeys p := by
  induction p with
  | nil => simp [hasLine, progKeys, List.lookup]
  | cons hd tl ih =>
      obtain ⟨k, s⟩ := hd
      by_cases hk : l = k
      · subst hk
        simp [hasLine, List.lookup, progKeys]
      · have hbeq : (l == k) = false := beq_eq_false_iff_ne.mpr hk
        simp only [hasLine, List.lookup, hbeq, progKeys, List.map_cons,
          List.mem_cons] at ih ⊢
        rw [ih]
        constructor
        · exact Or.inr
        · rintro (h | h)
          · exact absurd h hk
          · exact h

theorem mem_sortLines (p : ProgramType) (l : Int) :
    l ∈ sortLines p ↔ l ∈ progKeys p :=
  (List.perm_insertionSort (· ≤ ·) (progKeys p)).mem_iff

theorem hasLine_of_mem_sortLines {p : ProgramType} {l : Int}
    (h : l ∈ sortLines p) : hasLine p l = true :=
  (hasLine_iff_mem p l).mpr ((mem_sortLines p l).mp h)

/-! ## Frame and invariant lemmas for a single action -/

theorem execAction_ok_frame {nested : Runtime → RunResult} {rt rt' : Runtime} {a : Act}
    (h : execAction nested rt a = .ok rt') :
    rt'.program = rt.program ∧ rt'.lines = rt.lines ∧
    rt'.line_idx = rt.line_idx ∧ rt'.trace = rt.trace := by
  cases a with
  | setKey k v =>
      simp only [execAction, Except.ok.injEq] at h
      subst h; exact ⟨rfl, rfl, rfl, rfl⟩
  | goto l =>
      rw [execAction, Runtime.goto] at h
      split at h
      · simp only [Except.ok.injEq] at h
        subst h; exact ⟨rfl, rfl, rfl, rfl⟩
      · exact absurd h (by simp)
  | gosub l =>
      rw [execAction, Runtime.gosub] at h
      split at h
      · simp only [Except.ok.injEq] at h
        subst h; exact ⟨rfl, rfl, rfl, rfl⟩
      · exact absurd h (by simp)
  | ret =>
      rw [execAction, Runtime.return_] at h
      split at h
      · exact absurd h (by simp)
      · split at h <;>
          · simp only [Except.ok.injEq] at h
            subst h; exact ⟨rfl, rfl, rfl, rfl⟩
  | halt =>
      simp only [execAction, Runtime.halt, Except.ok.injEq] at h
      subst h; exact ⟨rfl, rfl, rfl, rfl⟩
  | runFile p ov =>
      rw [execAction, Runtime.run_file] at h
      split at h
      · exact absurd h (by simp)
      · split at h <;>
          · simp only [Except.ok.injEq] at h
            subst h; exact ⟨rfl, rfl, rfl, rfl⟩

theorem execAction_halted_mono {nested : Runtime → RunResult} {rt rt' : Runtime} {a : Act}
    (h : execAction nested rt a = .ok rt') (hh : rt.halted = true) :
    rt'.halted = true := by
  cases a with
  | setKey k v =>
      simp only [execAction, Except.ok.injEq] at h
      subst h; exact hh
  | goto l =>
      rw [execAction, Runtime.goto] at h
      split at h
      · simp only [Except.ok.injEq] at h; subst h; exact hh
      · exact absurd h (by simp)
  | gosub l =>
      rw [execAction, Runtime.gosub] at h
      split at h
      · simp only [Except.ok.injEq] at h; subst h; exact hh
      · exact absurd h (by simp)
  | ret =>
      rw [execAction, Runtime.return_] at h
      split at h
      · exact absurd h (by simp)
      · split at h <;> (simp only [Except.ok.injEq] at h; subst h)
        · rfl
        · exact hh
  | halt =>
      simp only [execAction, Runtime.halt, Except.ok.injEq] at h
      subst h; rfl
  | runFile p ov =>
      rw [execAction, Runtime.run_file] at h
      split at h
      · exact absurd h (by simp)
      · split at h <;> (simp only [Except.ok.injEq] at h; subst h; exact hh)

theorem execAction_sigOk {nested : Runtime → RunResult} {rt rt' : Runtime} {a : Act}
    (h : execAction nested rt a = .ok rt') (hs : sigOk rt) : sigOk rt' := by
  cases a with
  | setKey k v =>
      simp only [execAction, Except.ok.injEq] at h
      subst h; exact hs
  | goto l =>
      rw [execAction, Runtime.goto] at h
      split at h
      · simp only [Except.ok.injEq] at h; subst h
        intro _; exact Or.inr rfl
      · exact absurd h (by simp)
  | gosub l =>
      rw [execAction, Runtime.gosub] at h
      split at h
      · simp only [Except.ok.injEq] at h; subst h
        intro _; exact Or.inr rfl
      · exact absurd h (by simp)
  | ret =>
      rw [execAction, Runtime.return_] at h
      split at h
      · exact absurd h (by simp)
      · split at h <;> (simp only [Except.ok.injEq] at h; subst h)
        · intro _; exact Or.inl rfl
        · intro _; exact Or.inr rfl
  | halt =>
      simp only [execAction, Runtime.halt, Except.ok.injEq] at h
      subst h; intro _; exact Or.inl rfl
  | runFile p ov =>
      rw [execAction, Runtime.run_file] at h
      split at h
      · exact absurd h (by simp)
      · split at h <;> (simp only [Except.ok.injEq] at h; subst h; exact hs)

/-- Executing one basic action preserves the call-stack and
pending-jump invariants (a nested invocation would too, but basic steps
are all the invariant claims quantify over). -/
theorem execAction_inv {nested : Runtime → RunResult} {rt rt' : Runtime} {a : Act}
    (h : execAction nested rt a = .ok rt')
    (hst : stackOk rt) (hgt : gotoOk rt) (hln : linesOk rt) :
    stackOk rt' ∧ gotoOk rt' ∧ linesOk rt' := by
  have hfr := execAction_ok_frame h
  cases a with
  | setKey k v =>
      simp only [execAction, Except.ok.injEq] at h
      subst h; exact ⟨hst, hgt, hln⟩
  | goto l =>
      rw [execAction, Runtime.goto] at h
      split at h
      · simp only [Except.ok.injEq] at h
        subst h
        refine ⟨hst, ?_, hln⟩
        intro l' hl'
        simp only [Option.some.injEq] at hl'
        subst hl'
        assumption
      · exact absurd h (by simp)
  | gosub l =>
      rw [execAction, Runtime.gosub] at h
      split at h
      · simp only [Except.ok.injEq] at h
        subst h
        refine ⟨?_, ?_, hln⟩
        · intro l' hl'
          simp only [List.mem_cons] at hl'
          rcases hl' with hl' | hl'
          · -- the pushed entry is an element of the sorted line table
            have hmem : l' ∈ rt.lines := List.get?_mem hl'.symm
            rw [hln] at hmem
            exact hasLine_of_mem_sortLines hmem
          · exact hst l' hl'
        · intro l' hl'
          simp only [Option.some.injEq] at hl'
          subst hl'
          assumption
      · exact absurd h (by simp)
  | ret =>
      rw [execAction, Runtime.return_] at h
      rcases hstk : rt.stack with _ | ⟨r, rest⟩ <;> rw [hstk] at h
      · exact absurd h (by simp)
      · have hrest : ∀ l : Int, some l ∈ rest → hasLine rt.program l = true := by
          intro l hl
          exact hst l (by rw [hstk]; exact List.mem_cons_of_mem _ hl)
        cases r with
        | none =>
            simp only [Except.ok.injEq] at h
            subst h
            exact ⟨hrest, hgt, hln⟩
        | some l =>
            simp only [Except.ok.injEq] at h
            subst h
            refine ⟨hrest, ?_, hln⟩
            intro l' hl'
            simp only [Option.some.injEq] at hl'
            subst hl'
            exact hst l (by rw [hstk]; exact List.mem_cons_self _ _)
  | halt =>
      simp only [execAction, Runtime.halt, Except.ok.injEq] at h
      subst h; exact ⟨hst, hgt, hln⟩
  | runFile p ov =>
      rw [execAction, Runtime.run_file] at h
      split at h
      · exact absurd h (by simp)
      · split at h <;> (simp only [Except.ok.injEq] at h; subst h; exact ⟨hst, hgt, hln⟩)

/-! ## Lifting to whole steps -/

theorem execActions_ok_frame {nested : Runtime → RunResult} {rt rt' : Runtime}
    {acts : List Act} (h : execActions nested rt acts = .ok rt') :
    rt'.program = rt.program ∧ rt'.lines = rt.lines ∧
    rt'.line_idx = rt.line_idx ∧ rt'.trace = rt.trace := by
  induction acts generalizing rt with
  | nil =>
      simp only [execActions, Except.ok.injEq] at h
      subst h; exact ⟨rfl, rfl, rfl, rfl⟩
  | cons a rest ih =>
      rw [execActions] at h
      rcases ha : execAction nested rt a with e | rt1 <;> rw [ha] at h
      · exact absurd h (by simp)
      · obtain ⟨h1, h2, h3, h4⟩ := execAction_ok_frame ha
        obtain ⟨g1, g2, g3, g4⟩ := ih h
        exact ⟨g1.trans h1, g2.trans h2, g3.trans h3, g4.trans h4⟩

theorem execActions_halted_mono {nested : Runtime → RunResult} {rt rt' : Runtime}
    {acts : List Act} (h : execActions nested rt acts = .ok rt')
    (hh : rt.halted = true) : rt'.halted = true := by
  induction acts generalizing rt with
  | nil =>
      simp only [execActions, Except.ok.injEq] at h
      subst h; exact hh
  | cons a rest ih =>
      rw [execActions] at h
      rcases ha : execAction nested rt a with e | rt1 <;> rw [ha] at h
      · exact absurd h (by simp)
      · exact ih h (execAction_halted_mono ha hh)

theorem execActions_sigOk {nested : Runtime → RunResult} {rt rt' : Runtime}
    {acts : List Act} (h : execActions nested rt acts = .ok rt')
    (hs : sigOk rt) : sigOk rt' := by
  induction acts generalizing rt with
  | nil =>
      simp only [execActions, Except.ok.injEq] at h
      subst h; exact hs
  | cons a rest ih =>
      rw [execActions] at h
      rcases ha : execAction nested rt a with e | rt1 <;> rw [ha] at h
      · exact absurd h (by simp)
      · exact ih h (execAction_sigOk ha hs)

theorem execActions_inv {nested : Runtime → RunResult} {rt rt' : Runtime}
    {acts : List Act} (h : execActions nested rt acts = .ok rt')
    (hst : stackOk rt) (hgt : gotoOk rt) (hln : linesOk rt) :
    stackOk rt' ∧ gotoOk rt' ∧ linesOk rt' := by
  induction acts generalizing rt with
  | nil =>
      simp only [execActions, Except.ok.injEq] at h
      subst h; exact ⟨hst, hgt, hln⟩
  | cons a rest ih =>
      rw [execActions] at h
      rcases ha : execAction nested rt a with e | rt1 <;> rw [ha] at h
      · exact absurd h (by simp)
      · obtain ⟨i1, i2, i3⟩ := execAction_inv ha hst hgt hln
        exact ih h i1 i2 i3

theorem execActions_append (nested : Runtime → RunResult) (rt : Runtime)
    (as bs : List Act) :
    execActions nested rt (as ++ bs) =
      match execActions nested rt as with
      | .error e => .error e
      | .ok rt' => execActions nested rt' bs := by
  induction as generalizing rt with
  | nil => simp [execActions]
  | cons a as ih =>
      simp only [List.cons_append, execActions]
      rcases ha : execAction nested rt a with e | rt1
      · rfl
      · exact ih rt1

/-! ## Run-loop structure lemmas -/

theorem afterStep_shape (recur : Runtime → RunResult) (rt1 : Runtime) :
    afterStep recur rt1 = .ok rt1 ∨
    (∃ i, afterStep recur rt1 = recur { rt1 with line_idx := i }) ∨
    (∃ l, afterStep recur rt1 = .error (.indexError l, rt1)) := by
  rcases hh : rt1.halted with _ | _
  · rcases hg : rt1.goto_line with _ | l
    · rcases hr : rt1.returning with _ | _
      · by_cases hadv : rt1.line_idx + 1 < rt1.lines.length
        · refine Or.inr (Or.inl ⟨rt1.line_idx + 1, ?_⟩)
          simp [afterStep, hh, hg, hr, hadv]
        · refine Or.inl ?_
          simp [afterStep, hh, hg, hr, hadv]
      · refine Or.inl ?_
        simp [afterStep, hh, hg, hr]
    · by_cases hmem : l ∈ rt1.lines
      · refine Or.inr (Or.inl ⟨rt1.lines.indexOf l, ?_⟩)
        simp [afterStep, hh, hg, hmem]
      · refine Or.inr (Or.inr ⟨l, ?_⟩)
        simp [afterStep, hh, hg, hmem]
  · refine Or.inl ?_
    simp [afterStep, hh]

theorem runLoop_succ (fuel : Nat) (rt : Runtime) (line : Int)
    (hg : rt.lines.get? rt.line_idx = some line) (hh : rt.halted = false) :
    runLoop (fuel + 1) rt =
      match execActions (fun c => runLoop fuel { c with line_idx := 0 })
          (stepEnter rt line) (stmtOf rt line) with
      | .error e => .error e
      | .ok rt1 => afterStep (runLoop fuel) rt1 := by
  rw [runLoop]
  simp only [hg, hh, Bool.false_eq_true, if_false]

theorem runLoopSimpl_succ (fuel : Nat) (rt : Runtime) (line : Int)
    (hg : rt.lines.get? rt.line_idx = some line) (hh : rt.halted = false) :
    runLoopSimpl (fuel + 1) rt =
      match execActions (fun c => runLoopSimpl fuel { c with line_idx := 0 })
          (stepEnter rt line) (stmtOf rt line) with
      | .error e => .error e
      | .ok rt1 => afterStepSimpl (runLoopSimpl fuel) rt1 := by
  rw [runLoopSimpl]
  simp only [hg, hh, Bool.false_eq_true, if_false]

theorem runLoop_trace_mono {fuel : Nat} {rt rt' : Runtime}
    (h : runLoop fuel rt = .ok rt') : ∃ t, rt'.trace = rt.trace ++ t := by
  induction fuel generalizing rt rt' with
  | zero => exact absurd h (by simp [runLoop])
  | succ fuel ih =>
      rw [runLoop] at h
      rcases hg : rt.lines.get? rt.line_idx with _ | line <;> simp only [hg] at h
      · simp only [Except.ok.injEq] at h
        subst h
        exact ⟨[], (List.append_nil _).symm⟩
      · by_cases hh : rt.halted = true
        · rw [if_pos hh] at h
          simp only [Except.ok.injEq] at h
          subst h
          exact ⟨[], (List.append_nil _).symm⟩
        · rw [if_neg hh] at h
          rcases he : execActions (fun c => runLoop fuel { c with line_idx := 0 })
              (stepEnter rt line) (stmtOf rt line) with e | rt1 <;> simp only [he] at h
          · exact absurd h (by simp)
          · have htr : rt1.trace = rt.trace ++ [line] := (execActions_ok_frame he).2.2.2
            rcases afterStep_shape (runLoop fuel) rt1 with hs | ⟨i, hs⟩ | ⟨l, hs⟩ <;>
              rw [hs] at h
            · simp only [Except.ok.injEq] at h
              subst h
              exact ⟨[line], htr⟩
            · obtain ⟨t, ht⟩ := ih h
              refine ⟨[line] ++ t, ?_⟩
              rw [ht]
              show rt1.trace ++ t = rt.trace ++ ([line] ++ t)
              rw [htr, List.append_assoc]
            · exact absurd h (by simp)

/-! ## The dead "a return occurred" branch -/

theorem sigOk_stepEnter (rt : Runtime) (line : Int) : sigOk (stepEnter rt line) := by
  intro hret
  simp [stepEnter] at hret

theorem afterStep_eq_simpl {recur1 recur2 : Runtime → RunResult} {rt1 : Runtime}
    (hsig : sigOk rt1) (hrec : ∀ c, recur1 c = recur2 c) :
    afterStep recur1 rt1 = afterStepSimpl recur2 rt1 := by
  rcases hh : rt1.halted with _ | _
  · rcases hg : rt1.goto_line with _ | l
    · rcases hr : rt1.returning with _ | _
      · simp [afterStep, afterStepSimpl, hh, hg, hr, hrec]
      · rcases hsig hr with hcontra | hcontra
        · rw [hh] at hcontra
          exact absurd hcontra (by simp)
        · rw [hg] at hcontra
          exact absurd hcontra (by simp)
    · simp [afterStep, afterStepSimpl, hh, hg, hrec]
  · simp [afterStep, afterStepSimpl, hh]

theorem runLoop_eq_simpl : ∀ (fuel : Nat) (rt : Runtime),
    runLoop fuel rt = runLoopSimpl fuel rt := by
  intro fuel
  induction fuel with
  | zero => intro rt; rfl
  | succ fuel ih =>
      intro rt
      rw [runLoop, runLoopSimpl]
      rcases hg : rt.lines.get? rt.line_idx with _ | line
      · rfl
      · rcases hh : rt.halted with _ | _
        · simp only [hh, Bool.false_eq_true, if_false]
          have hnest : (fun c : Runtime => runLoop fuel { c with line_idx := 0 })
              = (fun c : Runtime => runLoopSimpl fuel { c with line_idx := 0 }) :=
            funext fun c => ih _
          rw [hnest]
          rcases he : execActions (fun c => runLoopSimpl fuel { c with line_idx := 0 })
              (stepEnter rt line) (stmtOf rt line) with e | rt1 <;> simp only [he]
          have hsig : sigOk rt1 := execActions_sigOk he (sigOk_stepEnter rt line)
          exact afterStep_eq_simpl hsig (fun c => ih _)
        · simp [hh]

/-! ## Invariant machinery for the jump-target lookup -/

theorem get?_indexOf {l : List Int} {x : Int} (h : x ∈ l) :
    l.get? (l.indexOf x) = some x := by
  have hlt : l.indexOf x < l.length := List.indexOf_lt_length.mpr h
  rw [List.get?_eq_getElem?, List.getElem?_eq_getElem hlt, List.getElem_indexOf hlt]

theorem runLoop_succ_none (fuel : Nat) (rt : Runtime)
    (hg : rt.lines.get? rt.line_idx = none) :
    runLoop (fuel + 1) rt = .ok rt := by
  rw [runLoop]
  simp only [hg]

theorem runLoop_succ_halted (fuel : Nat) (rt : Runtime) (line : Int)
    (hg : rt.lines.get? rt.line_idx = some line) (hh : rt.halted = true) :
    runLoop (fuel + 1) rt = .ok rt := by
  rw [runLoop]
  simp only [hg, hh, if_true]

theorem prog_all_lookup {q : Step → Bool} (hnil : q [] = true) {p : ProgramType}
    (hb : p.all (fun pr => q pr.2) = true) (l : Int) :
    q ((p.lookup l).getD []) = true := by
  induction p with
  | nil => simpa [List.lookup] using hnil
  | cons hd tl ih =>
      obtain ⟨k, s⟩ := hd
      simp only [List.all_cons, Bool.and_eq_true] at hb
      obtain ⟨hbs, hbtl⟩ := hb
      rcases hbeq : (l == k) with _ | _
      · simp only [List.lookup, hbeq]
        exact ih hbtl
      · simp only [List.lookup, hbeq]
        simpa using hbs

theorem execActions_basic_no_indexError {nested : Runtime → RunResult} {rt : Runtime}
    {acts : List Act} (hb : basicStep acts = true) (l : Int) (rte : Runtime) :
    execActions nested rt acts ≠ .error (.indexError l, rte) := by
  induction acts generalizing rt with
  | nil => simp [execActions]
  | cons a rest ih =>
      simp only [basicStep, List.all_cons, Bool.and_eq_true] at hb
      obtain ⟨hba, hbrest⟩ := hb
      rw [execActions]
      rcases ha : execAction nested rt a with e | rt1
      · intro hc
        simp only [Except.error.injEq] at hc
        subst hc
        cases a with
        | setKey k v => exact absurd ha (by simp [execAction])
        | goto m =>
            rw [execAction, Runtime.goto] at ha
            split at ha
            · exact absurd ha (by simp)
            · simp at ha
        | gosub m =>
            rw [execAction, Runtime.gosub] at ha
            split at ha
            · exact absurd ha (by simp)
            · simp at ha
        | ret =>
            rw [execAction, Runtime.return_] at ha
            split at ha
            · simp at ha
            · split at ha <;> exact absurd ha (by simp)
        | halt => exact absurd ha (by simp [execAction, Runtime.halt])
        | runFile p ov => exact absurd hba (by simp [Act.isBasic])
      · exact ih hbrest

theorem runLoop_inv {fuel : Nat} : ∀ {rt : Runtime},
    basicProg rt.program = true → stackOk rt → linesOk rt →
    (∀ (l : Int) (rte : Runtime), runLoop fuel rt ≠ .error (.indexError l, rte)) ∧
    (∀ rt', runLoop fuel rt = .ok rt' → stackOk rt' ∧ linesOk rt') := by
  induction fuel with
  | zero =>
      intro rt hb hst hln
      constructor
      · intro l rte hc
        rw [runLoop] at hc
        simp at hc
      · intro rt' hc
        rw [runLoop] at hc
        simp at hc
  | succ fuel ih =>
      intro rt hb hst hln
      rcases hg : rt.lines.get? rt.line_idx with _ | line
      · rw [runLoop_succ_none fuel rt hg]
        constructor
        · intro l rte hc
          simp at hc
        · intro rt' hc
          simp only [Except.ok.injEq] at hc
          subst hc
          exact ⟨hst, hln⟩
      · rcases hh : rt.halted with _ | _
        · -- halted = false: the step executes
          rw [runLoop_succ fuel rt line hg hh]
          rcases he : execActions (fun c => runLoop fuel { c with line_idx := 0 })
              (stepEnter rt line) (stmtOf rt line) with e | rt1 <;> simp only [he]
          · -- the step raised: never the index error
            have hbs : basicStep (stmtOf rt line) = true := by
              have hba : rt.program.all (fun pr => basicStep pr.2) = true := hb
              exact prog_all_lookup rfl hba line
            constructor
            · intro l rte hc
              simp only [Except.error.injEq] at hc
              subst hc
              exact absurd he (execActions_basic_no_indexError hbs l rte)
            · intro rt' hc
              simp at hc
          · -- the step succeeded: invariants carried to rt1
            have hsti : stackOk (stepEnter rt line) := hst
            have hgti : gotoOk (stepEnter rt line) := by
              intro l hl
              simp [stepEnter] at hl
            have hlni : linesOk (stepEnter rt line) := hln
            obtain ⟨i1, i2, i3⟩ := execActions_inv he hsti hgti hlni
            have hprog1 : rt1.program = rt.program := (execActions_ok_frame he).1
            have hb1 : basicProg rt1.program = true := by rw [hprog1]; exact hb
            rcases hh1 : rt1.halted with _ | _
            · rcases hg1 : rt1.goto_line with _ | l
              · rcases hr1 : rt1.returning with _ | _
                · by_cases hadv : rt1.line_idx + 1 < rt1.lines.length
                  · have hred : afterStep (runLoop fuel) rt1 =
                        runLoop fuel { rt1 with line_idx := rt1.line_idx + 1 } := by
                      simp [afterStep, hh1, hg1, hr1, hadv]
                    rw [hred]
                    exact ih hb1 i1 i3
                  · have hred : afterStep (runLoop fuel) rt1 = .ok rt1 := by
                      simp [afterStep, hh1, hg1, hr1, hadv]
                    rw [hred]
                    constructor
                    · intro l rte hc
                      simp at hc
                    · intro rt' hc
                      simp only [Except.ok.injEq] at hc
                      subst hc
                      exact ⟨i1, i3⟩
                · -- a return occurred with no halt and no jump: the loop breaks
                  have hred : afterStep (runLoop fuel) rt1 = .ok rt1 := by
                    simp [afterStep, hh1, hg1, hr1]
                  rw [hred]
                  constructor
                  · intro l rte hc
                    simp at hc
                  · intro rt' hc
                    simp only [Except.ok.injEq] at hc
                    subst hc
                    exact ⟨i1, i3⟩
              · -- a jump target is pending: by the invariant it is in the table
                have hmem : l ∈ rt1.lines := by
                  have hhas := i2 l hg1
                  rw [i3]
                  exact (mem_sortLines _ _).mpr ((hasLine_iff_mem _ _).mp hhas)
                have hred : afterStep (runLoop fuel) rt1 =
                    runLoop fuel { rt1 with line_idx := rt1.lines.indexOf l } := by
                  simp [afterStep, hh1, hg1, hmem]
                rw [hred]
                exact ih hb1 i1 i3
            · -- halt requested during the step
              have hred : afterStep (runLoop fuel) rt1 = .ok rt1 := by
                simp [afterStep, hh1]
              rw [hred]
              constructor
              · intro l rte hc
                simp at hc
              · intro rt' hc
                simp only [Except.ok.injEq] at hc
                subst hc
                exact ⟨i1, i3⟩
        · -- halted on entry
          rw [runLoop_succ_halted fuel rt line hg hh]
          constructor
          · intro l rte hc
            simp at hc
          · intro rt' hc
            simp only [Except.ok.injEq] at hc
            subst hc
            exact ⟨hst, hln⟩

/-! ## Straight-line execution of control-free programs -/

theorem execActions_pure {nested : Runtime → RunResult} {acts : List Act}
    (hp : pureStep acts = true) : ∀ (rt : Runtime),
    ∃ g, execActions nested rt acts = .ok { rt with globals := g } := by
  induction acts with
  | nil =>
      intro rt
      exact ⟨rt.globals, by simp [execActions]⟩
  | cons a rest ih =>
      intro rt
      simp only [pureStep, List.all_cons, Bool.and_eq_true] at hp
      obtain ⟨hpa, hprest⟩ := hp
      cases a with
      | setKey k v =>
          obtain ⟨g, hg⟩ := ih hprest { rt with globals := storeInsert k v rt.globals }
          refine ⟨g, ?_⟩
          rw [execActions]
          simp only [execAction]
          exact hg
      | goto m => exact absurd hpa (by simp [Act.isSetKey])
      | gosub m => exact absurd hpa (by simp [Act.isSetKey])
      | ret => exact absurd hpa (by simp [Act.isSetKey])
      | halt => exact absurd hpa (by simp [Act.isSetKey])
      | runFile p ov => exact absurd hpa (by simp [Act.isSetKey])


theorem execActions_pure_ok {nested : Runtime → RunResult} {acts : List Act}
    (hp : pureStep acts = true) (rt : Runtime) :
    ∃ rt', execActions nested rt acts = .ok rt' ∧ rt'.halted = rt.halted ∧
      rt'.goto_line = rt.goto_line ∧ rt'.returning = rt.returning ∧
      rt'.stack = rt.stack := by
  obtain ⟨g, hg⟩ := execActions_pure hp rt
  exact ⟨_, hg, rfl, rfl, rfl, rfl⟩

theorem afterStep_advance {recur : Runtime → RunResult} {rt1 : Runtime}
    (hh : rt1.halted = false) (hg : rt1.goto_line = none)
    (hr : rt1.returning = false) :
    afterStep recur rt1 =
      if rt1.line_idx + 1 < rt1.lines.length
      then recur { rt1 with line_idx := rt1.line_idx + 1 }
      else .ok rt1 := by
  simp [afterStep, hh, hg, hr]

theorem runLoop_pure : ∀ (n : Nat) (rt : Runtime),
    pureProg rt.program = true → rt.halted = false →
    n = rt.lines.length - rt.line_idx →
    ∃ rt', runLoop (n + 1) rt = .ok rt' ∧
      rt'.trace = rt.trace ++ rt.lines.drop rt.line_idx ∧
      rt'.halted = false ∧ rt'.lines = rt.lines ∧
      rt'.program = rt.program ∧ rt'.stack = rt.stack := by
  intro n
  induction n with
  | zero =>
      intro rt hp hh hn
      have hlen : rt.lines.length ≤ rt.line_idx := by omega
      have hg : rt.lines.get? rt.line_idx = none := List.get?_eq_none.mpr hlen
      refine ⟨rt, runLoop_succ_none 0 rt hg, ?_, hh, rfl, rfl, rfl⟩
      rw [List.drop_eq_nil_of_le hlen, List.append_nil]
  | succ n ih =>
      intro rt hp hh hn
      have hlt : rt.line_idx < rt.lines.length := by omega
      obtain ⟨line, hg⟩ : ∃ line, rt.lines.get? rt.line_idx = some line := by
        rcases hgg : rt.lines.get? rt.line_idx with _ | l
        · rw [List.get?_eq_none] at hgg
          omega
        · exact ⟨l, rfl⟩
      have hdrop : rt.lines.drop rt.line_idx = line :: rt.lines.drop (rt.line_idx + 1) := by
        rw [List.drop_eq_getElem_cons hlt]
        rw [List.get?_eq_getElem?, List.getElem?_eq_getElem hlt] at hg
        simp only [Option.some.injEq] at hg
        rw [hg]
      rw [runLoop_succ (n + 1) rt line hg hh]
      have hstep : pureStep (stmtOf rt line) = true := by
        have hpa : rt.program.all (fun pr => pureStep pr.2) = true := hp
        exact prog_all_lookup rfl hpa line
      obtain ⟨rt1, he, hh1, hg1, hr1, hs1⟩ :=
        @execActions_pure_ok (fun c => runLoop (n + 1) { c with line_idx := 0 })
          (stmtOf rt line) hstep (stepEnter rt line)
      obtain ⟨hp1, hl1, hi1, ht1⟩ := execActions_ok_frame he
      simp only [stepEnter] at hh1 hg1 hr1 hs1 hp1 hl1 hi1 ht1
      simp only [he]
      rw [afterStep_advance (hh1.trans hh) hg1 hr1]
      by_cases hadv : rt.line_idx + 1 < rt.lines.length
      · rw [if_pos (by rw [hi1, hl1]; exact hadv)]
        obtain ⟨rt', hrun, htr, hh', hlines', hprog', hstk'⟩ :=
          ih { rt1 with line_idx := rt1.line_idx + 1 }
            (by show pureProg rt1.program = true; rw [hp1]; exact hp)
            (by show rt1.halted = false; exact hh1.trans hh)
            (by show n = rt1.lines.length - (rt1.line_idx + 1); rw [hl1, hi1]; omega)
        refine ⟨rt', hrun, ?_, hh', ?_, ?_, ?_⟩
        · rw [htr]
          show rt1.trace ++ rt1.lines.drop (rt1.line_idx + 1) = _
          rw [ht1, hl1, hi1, hdrop, List.append_assoc, List.singleton_append]
        · rw [hlines']
          show rt1.lines = rt.lines
          exact hl1
        · rw [hprog']
          show rt1.program = rt.program
          exact hp1
        · rw [hstk']
          show rt1.stack = rt.stack
          exact hs1
      · rw [if_neg (by rw [hi1, hl1]; exact hadv)]
        refine ⟨rt1, rfl, ?_, hh1.trans hh, hl1, hp1, hs1⟩
        rw [ht1, hdrop, List.drop_eq_nil_of_le (by omega)]

/-! ## Helpers for nested invocation and single-action steps -/

theorem storeIsEmpty_false_iff (g : Store) : storeIsEmpty g = false ↔ g ≠ [] := by
  cases g <;> simp [storeIsEmpty]

theorem execActions_singleton (nested : Runtime → RunResult) (rt : Runtime) (a : Act) :
    execActions nested rt [a] = execAction nested rt a := by
  rw [execActions]
  rcases h : execAction nested rt a with e | r <;> simp [execActions]

theorem run_file_ok_frame {nested : Runtime → RunResult} {rt : Runtime}
    {p : ProgramType} {ov : Option Store} {rt2 : Runtime}
    (h : Runtime.run_file nested rt p ov = .ok rt2) :
    rt2.line_idx = rt.line_idx ∧ rt2.stack = rt.stack ∧
    rt2.goto_line = rt.goto_line ∧ rt2.returning = rt.returning ∧
    rt2.halted = rt.halted ∧ rt2.program = rt.program ∧
    rt2.lines = rt.lines ∧ rt2.trace = rt.trace := by
  rw [Runtime.run_file] at h
  split at h
  · exact absurd h (by simp)
  · split at h <;>
      · simp only [Except.ok.injEq] at h
        subst h
        exact ⟨rfl, rfl, rfl, rfl, rfl, rfl, rfl, rfl⟩

theorem run_file_shared {nested : Runtime → RunResult} {rt : Runtime}
    {p : ProgramType} {ov : Option Store} {child : Runtime}
    (hsh : Runtime.sharesState ov = true)
    (hn : nested (Runtime.childRuntime p ov rt) = .ok child) :
    Runtime.run_file nested rt p ov = .ok { rt with globals := child.globals } := by
  rw [Runtime.run_file, hn, hsh]
  rfl

/-! ## The claims -/

/-- C4: for every line number `l` not present in the program, `goto(l)` and
`gosub(l)` both fail with the unknown-line error, raised before any state
mutation: the error carries the runtime exactly as it was (in particular the
call stack is unchanged and no pending jump target was set — `gosub` did not
push the return address, so the failure is atomic). -/
theorem C4_unknown_line_atomic_failure (rt : Runtime) (l : Int)
    (h : hasLine rt.program l = false) :
    rt.goto l = .error (.noSuchLine l, rt) ∧
    rt.gosub l = .error (.noSuchLine l, rt) := by
  constructor <;> simp [Runtime.goto, Runtime.gosub, h]

/-- C4 witness: the two-line program `{10: pass}` with target `99`. -/
theorem C4_unknown_line_atomic_failure_witness :
    hasLine (mkRuntime [(10, [])] (some [])).program 99 = false ∧
    ((mkRuntime [(10, [])] (some [])).goto 99 =
        .error (.noSuchLine 99, mkRuntime [(10, [])] (some [])) ∧
      (mkRuntime [(10, [])] (some [])).gosub 99 =
        .error (.noSuchLine 99, mkRuntime [(10, [])] (some []))) :=
  ⟨rfl, C4_unknown_line_atomic_failure (mkRuntime [(10, [])] (some [])) 99 rfl⟩

/-- C5: invoking `return_` with an empty call stack fails with the
unbalanced-return error and performs no state mutation: the error carries
the runtime exactly as it was before the call (shared state, call stack and
transient signals included). -/
theorem C5_unbalanced_return_no_mutation (rt : Runtime) (h : rt.stack = []) :
    rt.return_ = .error (.returnWithoutGosub, rt) := by
  simp [Runtime.return_, h]

/-- C5 witness: a fresh engine (empty stack). -/
theorem C5_unbalanced_return_no_mutation_witness :
    (mkRuntime [(10, [Act.ret])] (some [])).stack = [] ∧
    (mkRuntime [(10, [Act.ret])] (some [])).return_ =
      .error (.returnWithoutGosub, mkRuntime [(10, [Act.ret])] (some [])) :=
  ⟨rfl, C5_unbalanced_return_no_mutation (mkRuntime [(10, [Act.ret])] (some [])) rfl⟩

/-- C1 counterexample: the claim asserts that *every* shared-state override —
"including an empty store" — isolates the nested run from the parent.  The
source computes the child's store as `globals_dict or self.globals`, and a
Python empty dict is falsy, so an empty-store override falls back to the
parent's own store: here the child program writes `k`, the override is the
empty store `[]`, and the write *is* visible in the parent's final state. -/
theorem C1_counterexample :
    resultGlobals ((mkRuntime
        [(10, [Act.runFile [(100, [Act.setKey "k" 1])] (some [])]), (20, [])]
        (some [])).run 10) = some [("k", 1)] := rfl

/-- C1 (amended): a nested invocation operates on the supplied store and is
isolated from the parent exactly when the override is a *nonempty* store; a
`None` override and an *empty-store* override both fall back to sharing the
parent's state by reference (`globals_dict or self.globals`), so the child's
writes become the parent's state. -/
theorem C1_amended_override_semantics :
    (∀ (p : ProgramType) (g : Store) (rt : Runtime), g ≠ [] →
      (Runtime.childRuntime p (some g) rt).globals = g) ∧
    (∀ (nested : Runtime → RunResult) (rt : Runtime) (p : ProgramType)
        (g : Store) (child : Runtime), g ≠ [] →
      nested (Runtime.childRuntime p (some g) rt) = .ok child →
      execAction nested rt (.runFile p (some g)) = .ok rt) ∧
    (∀ (nested : Runtime → RunResult) (rt : Runtime) (p : ProgramType)
        (child : Runtime),
      nested (Runtime.childRuntime p none rt) = .ok child →
      execAction nested rt (.runFile p none) = .ok { rt with globals := child.globals }) ∧
    (∀ (p : ProgramType) (rt : Runtime),
      (Runtime.childRuntime p (some []) rt).globals = rt.globals) ∧
    (∀ (nested : Runtime → RunResult) (rt : Runtime) (p : ProgramType)
        (child : Runtime),
      nested (Runtime.childRuntime p (some []) rt) = .ok child →
      execAction nested rt (.runFile p (some [])) = .ok { rt with globals := child.globals }) := by
  refine ⟨?_, ?_, ?_, ?_, ?_⟩
  · intro p g rt hne
    show Runtime.childStore (some g) rt.globals = g
    rw [Runtime.childStore, (storeIsEmpty_false_iff g).mpr hne]
    rfl
  · intro nested rt p g child hne hn
    show Runtime.run_file nested rt p (some g) = .ok rt
    rw [Runtime.run_file, hn]
    have hsh : Runtime.sharesState (some g) = false := by
      rw [Runtime.sharesState]
      exact (storeIsEmpty_false_iff g).mpr hne
    rw [hsh]
    rfl
  · intro nested rt p child hn
    exact run_file_shared rfl hn
  · intro p rt
    rfl
  · intro nested rt p child hn
    exact run_file_shared rfl hn

/-- C1 witness for the amended claim: a one-key override store is nonempty
and isolates; the `None` and empty-store overrides share. -/
theorem C1_amended_override_semantics_witness :
    ([("z", 0)] : Store) ≠ [] ∧
    (Runtime.childRuntime [(100, [Act.setKey "k" 1])] (some [("z", 0)])
        (mkRuntime [] (some [("p", 7)]))).globals = [("z", 0)] ∧
    execAction (fun c => .ok c) (mkRuntime [] (some [("p", 7)]))
        (.runFile [(100, [Act.setKey "k" 1])] (some [("z", 0)])) =
      .ok (mkRuntime [] (some [("p", 7)])) := by
  refine ⟨by decide, ?_, ?_⟩
  · exact C1_amended_override_semantics.1 [(100, [Act.setKey "k" 1])] [("z", 0)]
      (mkRuntime [] (some [("p", 7)])) (by decide)
  · exact C1_amended_override_semantics.2.1 (fun c => .ok c)
      (mkRuntime [] (some [("p", 7)])) [(100, [Act.setKey "k" 1])] [("z", 0)] _
      (by decide) rfl

/-- C2 counterexample: the claim asserts that a step invoking `halt()` then
`goto(L)` (with `L` a valid line) continues at `L`.  In the source the halt
flag is sticky — `goto` sets only the jump-target field and nothing clears
`_halted` — and the run loop checks the halt flag first, so the program
`{10: halt; goto 20, 20: x := 99}` halts after line 10: the trace is `[10]`,
line 20 never executes, and `x` is never written. -/
theorem C2_counterexample :
    resultTrace ((mkRuntime [(10, [Act.halt, Act.goto 20]),
        (20, [Act.setKey "x" 99])] (some [])).run 10) = some [10] ∧
    resultHalted ((mkRuntime [(10, [Act.halt, Act.goto 20]),
        (20, [Act.setKey "x" 99])] (some [])).run 10) = some true ∧
    resultGlobals ((mkRuntime [(10, [Act.halt, Act.goto 20]),
        (20, [Act.setKey "x" 99])] (some [])).run 10) = some [] :=
  ⟨rfl, rfl, rfl⟩

/-- C2 (amended): among the jump-setting operations, the last one executed
in a step wins — the pending jump target is a single overwritten field, so a
step ending in `goto(L)` always leaves the target at `L`; but the halt flag
is *sticky*: once any operation of the step requests halt, no later action
clears it, and the run terminates right after that step regardless of a
later `goto`/`gosub` in the same step. -/
theorem C2_amended_last_jump_wins_halt_sticky :
    (∀ (nested : Runtime → RunResult) (rt : Runtime) (acts : List Act)
        (L : Int) (rt' : Runtime),
      execActions nested rt (acts ++ [.goto L]) = .ok rt' →
      rt'.goto_line = some L) ∧
    (∀ (nested : Runtime → RunResult) (rt : Runtime) (acts : List Act)
        (rt' : Runtime),
      rt.halted = true → execActions nested rt acts = .ok rt' →
      rt'.halted = true) ∧
    (∀ (fuel : Nat) (rt : Runtime) (line L : Int) (rt1 : Runtime),
      rt.lines.get? rt.line_idx = some line →
      rt.halted = false →
      stmtOf rt line = [.halt, .goto L] →
      execActions (fun c => runLoop fuel { c with line_idx := 0 })
          (stepEnter rt line) (stmtOf rt line) = .ok rt1 →
      runLoop (fuel + 1) rt = .ok rt1 ∧ rt1.halted = true ∧
        rt1.goto_line = some L ∧ rt1.trace = rt.trace ++ [line]) := by
  refine ⟨?_, ?_, ?_⟩
  · intro nested rt acts L rt' h
    rw [execActions_append] at h
    rcases ha : execActions nested rt acts with e | rtm <;> simp only [ha] at h
    · exact absurd h (by simp)
    · rw [execActions_singleton, execAction, Runtime.goto] at h
      split at h
      · simp only [Except.ok.injEq] at h
        subst h
        rfl
      · exact absurd h (by simp)
  · intro nested rt acts rt' hh h
    exact execActions_halted_mono h hh
  · intro fuel rt line L rt1 hg hh hstmt he
    have hhalt : rt1.halted = true := by
      rw [hstmt, execActions] at he
      simp only [execAction, Runtime.halt] at he
      exact execActions_halted_mono he rfl
    have hgoto : rt1.goto_line = some L := by
      have : ([Act.halt, Act.goto L] : List Act) = [Act.halt] ++ [Act.goto L] := rfl
      rw [hstmt, this, execActions_append] at he
      rcases ha : execActions (fun c => runLoop fuel { c with line_idx := 0 })
          (stepEnter rt line) [Act.halt] with e | rtm <;> simp only [ha] at he
      · exact absurd he (by simp)
      · rw [execActions_singleton, execAction, Runtime.goto] at he
        split at he
        · simp only [Except.ok.injEq] at he
          subst he
          rfl
        · exact absurd he (by simp)
    refine ⟨?_, hhalt, hgoto, (execActions_ok_frame he).2.2.2⟩
    rw [runLoop_succ fuel rt line hg hh]
    simp only [he]
    simp [afterStep, hhalt]

/-- C2 witness: the program `{10: halt; goto 20, 20: x := 99}` — the step at
line 10 halts and then jumps; the run stops after line 10 with the jump
target still set to 20. -/
theorem C2_amended_last_jump_wins_halt_sticky_witness :
    runLoop 10 { mkRuntime [(10, [Act.halt, Act.goto 20]),
        (20, [Act.setKey "x" 99])] (some []) with line_idx := 0 } =
      .ok { mkRuntime [(10, [Act.halt, Act.goto 20]),
          (20, [Act.setKey "x" 99])] (some []) with
        halted := true, goto_line := some 20, trace := [10] } ∧
    ({ mkRuntime [(10, [Act.halt, Act.goto 20]),
        (20, [Act.setKey "x" 99])] (some []) with
      halted := true, goto_line := some 20, trace := [10] } : Runtime).halted = true ∧
    ({ mkRuntime [(10, [Act.halt, Act.goto 20]),
        (20, [Act.setKey "x" 99])] (some []) with
      halted := true, goto_line := some 20, trace := [10] } : Runtime).goto_line = some 20 ∧
    ({ mkRuntime [(10, [Act.halt, Act.goto 20]),
        (20, [Act.setKey "x" 99])] (some []) with
      halted := true, goto_line := some 20, trace := [10] } : Runtime).trace =
      ({ mkRuntime [(10, [Act.halt, Act.goto 20]),
          (20, [Act.setKey "x" 99])] (some []) with line_idx := 0 } : Runtime).trace ++ [10] :=
  C2_amended_last_jump_wins_halt_sticky.2.2 9
    { mkRuntime [(10, [Act.halt, Act.goto 20]), (20, [Act.setKey "x" 99])] (some [])
      with line_idx := 0 }
    10 20 _ rfl rfl rfl rfl

/-- C3: `gosub(L)` at the current line pushes as return address the line
immediately following it in the sorted table (`lines.get? (line_idx + 1)`,
i.e. the sentinel `none` exactly when the current line is last) and jumps to
`L`; a step executing `return_` with a concrete address `r` on top of the
stack makes the loop resume exactly at `r` (the next visited line is `r`);
and a step executing `return_` with the sentinel on top halts the run
immediately — nothing after the returning line is visited. -/
theorem C3_gosub_return_resumes_at_following_line :
    (∀ (nested : Runtime → RunResult) (rt : Runtime) (L : Int),
      hasLine rt.program L = true →
      execAction nested rt (.gosub L) =
        .ok { rt with stack := rt.lines.get? (rt.line_idx + 1) :: rt.stack,
                      goto_line := some L }) ∧
    (∀ (fuel : Nat) (rt : Runtime) (cline r : Int) (rest : List (Option Int)),
      rt.lines.get? rt.line_idx = some cline →
      stmtOf rt cline = [.ret] →
      rt.stack = some r :: rest →
      rt.halted = false →
      r ∈ rt.lines →
      ∃ rt2, runLoop (fuel + 1) rt = runLoop fuel rt2 ∧
        rt2.line_idx = rt.lines.indexOf r ∧
        rt2.lines.get? rt2.line_idx = some r ∧
        rt2.stack = rest ∧ rt2.halted = false ∧
        rt2.trace = rt.trace ++ [cline]) ∧
    (∀ (fuel : Nat) (rt : Runtime) (cline : Int) (rest : List (Option Int)),
      rt.lines.get? rt.line_idx = some cline →
      stmtOf rt cline = [.ret] →
      rt.stack = none :: rest →
      rt.halted = false →
      ∃ rt3, runLoop (fuel + 1) rt = .ok rt3 ∧ rt3.halted = true ∧
        rt3.stack = rest ∧ rt3.trace = rt.trace ++ [cline]) := by
  refine ⟨?_, ?_, ?_⟩
  · intro nested rt L hL
    simp [execAction, Runtime.gosub, hL]
  · intro fuel rt cline r rest hg hstmt hstk hh hmem
    rw [runLoop_succ fuel rt cline hg hh, hstmt]
    have he : execActions (fun c => runLoop fuel { c with line_idx := 0 })
        (stepEnter rt cline) [Act.ret] =
        .ok { stepEnter rt cline with
              stack := rest
              goto_line := some r
              returning := true } := by
      rw [execActions_singleton]
      simp [execAction, Runtime.return_, stepEnter, hstk]
    rw [he]
    refine ⟨{ stepEnter rt cline with
        stack := rest
        goto_line := some r
        returning := true
        line_idx := rt.lines.indexOf r }, ?_, rfl, ?_, rfl, hh, rfl⟩
    · show afterStep (runLoop fuel) _ = _
      simp [afterStep, stepEnter, hh, hmem]
    · show rt.lines.get? (rt.lines.indexOf r) = some r
      exact get?_indexOf hmem
  · intro fuel rt cline rest hg hstmt hstk hh
    rw [runLoop_succ fuel rt cline hg hh, hstmt]
    have he : execActions (fun c => runLoop fuel { c with line_idx := 0 })
        (stepEnter rt cline) [Act.ret] =
        .ok { stepEnter rt cline with
              stack := rest
              halted := true
              returning := true } := by
      rw [execActions_singleton]
      simp [execAction, Runtime.return_, stepEnter, hstk]
    rw [he]
    refine ⟨{ stepEnter rt cline with
        stack := rest
        halted := true
        returning := true }, ?_, rfl, rfl, rfl⟩
    show afterStep (runLoop fuel) _ = _
    simp [afterStep]

/-- C3 witness: in `{10: gosub 30, 20: pass, 30: return}`, the gosub at line
10 pushes `some 20` (the following line); the return at line 30 resumes at
line 20; and in `{5: goto 20, 10: return, 20: gosub 10}` the gosub at the
last line pushes the sentinel, so the matching return halts the run. -/
theorem C3_gosub_return_resumes_at_following_line_witness :
    (execAction (fun c => .ok c)
        (mkRuntime [(10, [Act.gosub 30]), (20, []), (30, [Act.ret])] (some []))
        (.gosub 30) =
      .ok { mkRuntime [(10, [Act.gosub 30]), (20, []), (30, [Act.ret])] (some []) with
            stack := [some 20]
            goto_line := some 30 }) ∧
    (∃ rt2, runLoop 4 { mkRuntime [(10, [Act.gosub 30]), (20, []), (30, [Act.ret])]
          (some []) with
          line_idx := 2
          stack := [some 20]
          trace := [10] } = runLoop 3 rt2 ∧
      rt2.line_idx = 1 ∧
      rt2.lines.get? rt2.line_idx = some 20 ∧
      rt2.stack = [] ∧ rt2.halted = false ∧
      rt2.trace = [10, 30]) ∧
    (∃ rt3, runLoop 3 { mkRuntime [(5, [Act.goto 20]), (10, [Act.ret]),
          (20, [Act.gosub 10])] (some []) with
          line_idx := 1
          stack := [none]
          trace := [5, 20] } = .ok rt3 ∧
      rt3.halted = true ∧ rt3.stack = [] ∧ rt3.trace = [5, 20, 10]) := by
  refine ⟨?_, ?_, ?_⟩
  · exact C3_gosub_return_resumes_at_following_line.1 (fun c => .ok c)
      (mkRuntime [(10, [Act.gosub 30]), (20, []), (30, [Act.ret])] (some [])) 30 rfl
  · exact C3_gosub_return_resumes_at_following_line.2.1 3
      { mkRuntime [(10, [Act.gosub 30]), (20, []), (30, [Act.ret])] (some []) with
        line_idx := 2
        stack := [some 20]
        trace := [10] } 30 20 [] rfl rfl rfl rfl (by decide)
  · exact C3_gosub_return_resumes_at_following_line.2.2 2
      { mkRuntime [(5, [Act.goto 20]), (10, [Act.ret]), (20, [Act.gosub 10])] (some []) with
        line_idx := 1
        stack := [none]
        trace := [5, 20] } 10 [] rfl rfl rfl rfl

/-- C6: whenever a step requests halt — whether directly through `halt()` or
through `return_` popping the terminate-on-return sentinel, the hypothesis
is only that the halted flag is set when the step finishes — the run
terminates successfully immediately after that step: the result is exactly
the post-step state, and the trace shows no line after the halting line,
regardless of any pending jump target set during the same step. -/
theorem C6_halt_requested_stops_run_immediately (fuel : Nat) (rt : Runtime)
    (line : Int) (rt1 : Runtime)
    (hg : rt.lines.get? rt.line_idx = some line)
    (hh : rt.halted = false)
    (he : execActions (fun c => runLoop fuel { c with line_idx := 0 })
        (stepEnter rt line) (stmtOf rt line) = .ok rt1)
    (hhalt : rt1.halted = true) :
    runLoop (fuel + 1) rt = .ok rt1 ∧ rt1.trace = rt.trace ++ [line] := by
  refine ⟨?_, (execActions_ok_frame he).2.2.2⟩
  rw [runLoop_succ fuel rt line hg hh]
  simp only [he]
  simp [afterStep, hhalt]

/-- C6 witness: `{10: goto 20; halt, 20: pass}` — a jump target is pending,
yet the run stops right after line 10. -/
theorem C6_halt_requested_stops_run_immediately_witness :
    runLoop 5 (mkRuntime [(10, [Act.goto 20, Act.halt]), (20, [])] (some [])) =
      .ok { mkRuntime [(10, [Act.goto 20, Act.halt]), (20, [])] (some []) with
            goto_line := some 20
            halted := true
            trace := [10] } ∧
    ({ mkRuntime [(10, [Act.goto 20, Act.halt]), (20, [])] (some []) with
        goto_line := some 20
        halted := true
        trace := [10] } : Runtime).trace =
      (mkRuntime [(10, [Act.goto 20, Act.halt]), (20, [])] (some [])).trace ++ [10] :=
  C6_halt_requested_stops_run_immediately 4
    (mkRuntime [(10, [Act.goto 20, Act.halt]), (20, [])] (some [])) 10 _ rfl rfl rfl rfl

/-- C7: a program whose steps invoke none of goto, gosub, return or halt
(pure state writes only) is run from the lowest line number through every
line exactly once in ascending order — the trace is exactly the sorted key
list, a permutation of the program's keys with no duplicates — and the run
then terminates by falling off the end (successfully, not halted).  The
fuel `|lines| + 1` suffices: one unit per visited line. -/
theorem C7_no_control_flow_visits_all_lines_in_order (p : ProgramType)
    (g : Option Store) (hp : pureProg p = true) (hnd : (progKeys p).Nodup) :
    ∃ rt', (mkRuntime p g).run ((sortLines p).length + 1) = .ok rt' ∧
      rt'.trace = sortLines p ∧
      List.Sorted (· ≤ ·) rt'.trace ∧
      rt'.trace.Perm (progKeys p) ∧
      rt'.trace.Nodup ∧
      rt'.halted = false := by
  obtain ⟨rt', hrun, htr, hh, _, _, _⟩ :=
    runLoop_pure (sortLines p).length (mkRuntime p g) hp rfl (by simp [mkRuntime])
  have htr' : rt'.trace = sortLines p := by
    rw [htr]
    simp [mkRuntime]
  refine ⟨rt', hrun, htr', ?_, ?_, ?_, hh⟩
  · rw [htr']
    exact List.sorted_insertionSort (· ≤ ·) (progKeys p)
  · rw [htr']
    exact List.perm_insertionSort (· ≤ ·) (progKeys p)
  · rw [htr']
    exact ((List.perm_insertionSort (· ≤ ·) (progKeys p)).nodup_iff).mpr hnd

/-- C7 witness: the three-line pure program `{10: x := 1, 20: x := 2, 30: pass}`. -/
theorem C7_no_control_flow_visits_all_lines_in_order_witness :
    pureProg [(10, [Act.setKey "x" 1]), (20, [Act.setKey "x" 2]), (30, [])] = true ∧
    (progKeys [(10, [Act.setKey "x" 1]), (20, [Act.setKey "x" 2]), (30, [])]).Nodup ∧
    ∃ rt', (mkRuntime [(10, [Act.setKey "x" 1]), (20, [Act.setKey "x" 2]), (30, [])]
        (some [])).run
        ((sortLines [(10, [Act.setKey "x" 1]), (20, [Act.setKey "x" 2]), (30, [])]).length
          + 1) = .ok rt' ∧
      rt'.trace = sortLines [(10, [Act.setKey "x" 1]), (20, [Act.setKey "x" 2]), (30, [])] ∧
      List.Sorted (· ≤ ·) rt'.trace ∧
      rt'.trace.Perm (progKeys [(10, [Act.setKey "x" 1]), (20, [Act.setKey "x" 2]), (30, [])]) ∧
      rt'.trace.Nodup ∧
      rt'.halted = false :=
  ⟨rfl, by decide,
    C7_no_control_flow_visits_all_lines_in_order
      [(10, [Act.setKey "x" 1]), (20, [Act.setKey "x" 2]), (30, [])]
      (some []) rfl (by decide)⟩

/-- C8: a nested invocation constructs a fresh child engine — its own line
table (the child program's sorted keys), instruction pointer at the first
line, an empty call stack and cleared signals; whatever halt/goto/gosub/
return activity happens inside the child, a successful `run_file` leaves
every parent field except the shared state unchanged (instruction pointer,
call stack, transient signals, program, line table, trace); when state is
shared (no override), the child's writes become the parent's state upon
return; and the parent's loop then resumes at the parent's own next line. -/
theorem C8_nested_run_is_isolated_from_parent :
    (∀ (p : ProgramType) (ov : Option Store) (rt : Runtime),
      (Runtime.childRuntime p ov rt).stack = [] ∧
      (Runtime.childRuntime p ov rt).line_idx = 0 ∧
      (Runtime.childRuntime p ov rt).lines = sortLines p ∧
      (Runtime.childRuntime p ov rt).goto_line = none ∧
      (Runtime.childRuntime p ov rt).returning = false ∧
      (Runtime.childRuntime p ov rt).halted = false) ∧
    (∀ (nested : Runtime → RunResult) (rt : Runtime) (p : ProgramType)
        (ov : Option Store) (rt2 : Runtime),
      execAction nested rt (.runFile p ov) = .ok rt2 →
      rt2.line_idx = rt.line_idx ∧ rt2.stack = rt.stack ∧
      rt2.goto_line = rt.goto_line ∧ rt2.returning = rt.returning ∧
      rt2.halted = rt.halted ∧ rt2.program = rt.program ∧
      rt2.lines = rt.lines ∧ rt2.trace = rt.trace) ∧
    (∀ (nested : Runtime → RunResult) (rt : Runtime) (p : ProgramType)
        (child : Runtime),
      nested (Runtime.childRuntime p none rt) = .ok child →
      execAction nested rt (.runFile p none) = .ok { rt with globals := child.globals }) ∧
    (∀ (fuel : Nat) (rt : Runtime) (line : Int) (p : ProgramType)
        (ov : Option Store) (rt1 : Runtime),
      rt.lines.get? rt.line_idx = some line →
      rt.halted = false →
      stmtOf rt line = [.runFile p ov] →
      execAction (fun c => runLoop fuel { c with line_idx := 0 })
          (stepEnter rt line) (.runFile p ov) = .ok rt1 →
      runLoop (fuel + 1) rt =
        (if rt.line_idx + 1 < rt.lines.length
         then runLoop fuel { rt1 with line_idx := rt.line_idx + 1 }
         else .ok rt1)) := by
  refine ⟨?_, ?_, ?_, ?_⟩
  · intro p ov rt
    exact ⟨rfl, rfl, rfl, rfl, rfl, rfl⟩
  · intro nested rt p ov rt2 h
    exact run_file_ok_frame h
  · intro nested rt p child hn
    exact run_file_shared rfl hn
  · intro fuel rt line p ov rt1 hg hh hstmt hexec
    rw [runLoop_succ fuel rt line hg hh, hstmt]
    have he : execActions (fun c => runLoop fuel { c with line_idx := 0 })
        (stepEnter rt line) [Act.runFile p ov] = .ok rt1 := by
      rw [execActions_singleton]
      exact hexec
    simp only [he]
    obtain ⟨hidx, hstk, hgt, hrt, hht, hpr, hln, htr⟩ := run_file_ok_frame hexec
    have hh1 : rt1.halted = false := by
      rw [hht]
      show rt.halted = false
      exact hh
    have hg1 : rt1.goto_line = none := hgt
    have hr1 : rt1.returning = false := hrt
    rw [afterStep_advance hh1 hg1 hr1]
    have hidx' : rt1.line_idx = rt.line_idx := hidx
    have hln' : rt1.lines = rt.lines := hln
    rw [hidx', hln']

/-- C8 witness: parent `{10: run_file(child), 20: pass}` with shared state;
the child `{100: k := 1}` writes a key; the parent's final state contains
the key, the parent's stack stays empty, and both parent lines ran. -/
theorem C8_nested_run_is_isolated_from_parent_witness :
    ((Runtime.childRuntime [(100, [Act.setKey "k" 1])] none
        (mkRuntime [(10, [Act.runFile [(100, [Act.setKey "k" 1])] none]), (20, [])]
          (some []))).stack = [] ∧
      (Runtime.childRuntime [(100, [Act.setKey "k" 1])] none
        (mkRuntime [(10, [Act.runFile [(100, [Act.setKey "k" 1])] none]), (20, [])]
          (some []))).line_idx = 0 ∧
      (Runtime.childRuntime [(100, [Act.setKey "k" 1])] none
        (mkRuntime [(10, [Act.runFile [(100, [Act.setKey "k" 1])] none]), (20, [])]
          (some []))).lines = sortLines [(100, [Act.setKey "k" 1])] ∧
      (Runtime.childRuntime [(100, [Act.setKey "k" 1])] none
        (mkRuntime [(10, [Act.runFile [(100, [Act.setKey "k" 1])] none]), (20, [])]
          (some []))).goto_line = none ∧
      (Runtime.childRuntime [(100, [Act.setKey "k" 1])] none
        (mkRuntime [(10, [Act.runFile [(100, [Act.setKey "k" 1])] none]), (20, [])]
          (some []))).returning = false ∧
      (Runtime.childRuntime [(100, [Act.setKey "k" 1])] none
        (mkRuntime [(10, [Act.runFile [(100, [Act.setKey "k" 1])] none]), (20, [])]
          (some []))).halted = false) ∧
    resultGlobals ((mkRuntime [(10, [Act.runFile [(100, [Act.setKey "k" 1])] none]),
        (20, [])] (some [])).run 10) = some [("k", 1)] ∧
    resultTrace ((mkRuntime [(10, [Act.runFile [(100, [Act.setKey "k" 1])] none]),
        (20, [])] (some [])).run 10) = some [10, 20] :=
  ⟨C8_nested_run_is_isolated_from_parent.1 [(100, [Act.setKey "k" 1])] none
      (mkRuntime [(10, [Act.runFile [(100, [Act.setKey "k" 1])] none]), (20, [])]
        (some [])),
    rfl, rfl⟩

/-- C9: the run-loop branch that handles "a return occurred" is dead code:
after any step (whose signals the loop reset on entry), if the returning
flag is set and no halt was requested, a pending jump target is always set
— `return_` either requests halt (sentinel) or sets the jump target, and no
later operation of the step can clear either — so the branch's condition
never holds, and the engine whose loop omits that branch (`runLoopSimpl`)
behaves identically on every program, initial state and fuel. -/
theorem C9_return_branch_is_dead_code :
    (∀ (nested : Runtime → RunResult) (rt : Runtime) (line : Int)
        (acts : List Act) (rt1 : Runtime),
      execActions nested (stepEnter rt line) acts = .ok rt1 →
      rt1.returning = true →
      rt1.halted = true ∨ rt1.goto_line.isSome = true) ∧
    (∀ (fuel : Nat) (rt : Runtime), runLoop fuel rt = runLoopSimpl fuel rt) := by
  constructor
  · intro nested rt line acts rt1 he hret
    exact execActions_sigOk he (sigOk_stepEnter rt line) hret
  · exact runLoop_eq_simpl

/-- C9 witness: a step consisting of a single `return_` popping a concrete
address leaves the jump target set (so the dead branch's guard fails), and
the two loops agree on a program exercising gosub/return. -/
theorem C9_return_branch_is_dead_code_witness :
    (({ mkRuntime [(10, [Act.ret])] (some []) with
        stack := []
        goto_line := some 10
        returning := true
        trace := [10] } : Runtime).halted = true ∨
      ({ mkRuntime [(10, [Act.ret])] (some []) with
        stack := []
        goto_line := some 10
        returning := true
        trace := [10] } : Runtime).goto_line.isSome = true) ∧
    runLoop 6 (mkRuntime [(10, [Act.gosub 30]), (20, [Act.halt]), (30, [Act.ret])]
        (some [])) =
      runLoopSimpl 6 (mkRuntime [(10, [Act.gosub 30]), (20, [Act.halt]), (30, [Act.ret])]
        (some [])) :=
  ⟨C9_return_branch_is_dead_code.1 (fun c => .ok c)
      { mkRuntime [(10, [Act.ret])] (some []) with stack := [some 10] } 10 [Act.ret] _
      rfl rfl,
    C9_return_branch_is_dead_code.2 6
      (mkRuntime [(10, [Act.gosub 30]), (20, [Act.halt]), (30, [Act.ret])] (some []))⟩

/-- C10: for a program whose steps interact with the engine only through
goto, gosub, return and halt (plus plain state writes — no nested
invocation), a run keeps the call-stack invariant — every entry is the
terminate-on-return sentinel or a line number present in the program — and
every pending jump target the loop consumes is a line of the program, so
the `lines.index` lookup never fails: the run never returns the
index-lookup error, and the invariant holds in every successful final
state. -/
theorem C10_stack_entries_and_jump_targets_are_program_lines
    (p : ProgramType) (g : Option Store) (fuel : Nat)
    (hb : basicProg p = true) :
    (∀ (l : Int) (rte : Runtime),
      (mkRuntime p g).run fuel ≠ .error (.indexError l, rte)) ∧
    (∀ rt', (mkRuntime p g).run fuel = .ok rt' →
      ∀ l : Int, some l ∈ rt'.stack → hasLine rt'.program l = true) := by
  have hst : stackOk (mkRuntime p g) := by
    intro l hl
    simp [mkRuntime] at hl
  have h := @runLoop_inv fuel (mkRuntime p g) hb hst rfl
  exact ⟨h.1, fun rt' hr => (h.2 rt' hr).1⟩

/-- C10 witness: the gosub/return/goto program
`{10: gosub 30, 20: halt, 30: goto 40, 40: return}` is basic; its run
neither fails the lookup nor leaves anything but valid entries stacked. -/
theorem C10_stack_entries_and_jump_targets_are_program_lines_witness :
    basicProg [(10, [Act.gosub 30]), (20, [Act.halt]), (30, [Act.goto 40]),
      (40, [Act.ret])] = true ∧
    ((∀ (l : Int) (rte : Runtime),
      (mkRuntime [(10, [Act.gosub 30]), (20, [Act.halt]), (30, [Act.goto 40]),
        (40, [Act.ret])] (some [])).run 8 ≠ .error (.indexError l, rte)) ∧
    (∀ rt', (mkRuntime [(10, [Act.gosub 30]), (20, [Act.halt]), (30, [Act.goto 40]),
        (40, [Act.ret])] (some [])).run 8 = .ok rt' →
      ∀ l : Int, some l ∈ rt'.stack → hasLine rt'.program l = true)) :=
  ⟨rfl,
    C10_stack_entries_and_jump_targets_are_program_lines
      [(10, [Act.gosub 30]), (20, [Act.halt]), (30, [Act.goto 40]), (40, [Act.ret])]
      (some []) 8 rfl⟩
